import Mathlib

/-!
Verification development for the `svm` repository: a user-space virtual
machine for a custom 32-bit RISC-style instruction set, together with its
assembler.  The Lean definitions below are a shallow embedding of the Rust
sources (`src/instr.rs`, `src/mem.rs`, `src/vm.rs`,
`src/bin/assembler/parser.rs`).  Machine integers are modelled as `Nat`
with explicit reduction modulo `2^32` where the Rust code wraps; bit masks
and shifts of the form `(x << s) & (((1 << k) - 1) << s)` are rendered as
the equal arithmetic expression `x % 2^k * 2^s`, and arithmetic right
shifts used for sign extension are rendered through the `sext` helper.
Fallible operations return `Except`/`Option`; `Option.none` marks an
execution that the Rust program aborts (a panic or an out-of-bounds
pointer write).
-/

namespace SVM

/-- Two's-complement sign extension of the low `w` bits of `x` to a 32-bit
value (the bit pattern of `((x << (32-w)) as i32 >> (32-w)) as u32`). -/
def sext (w x : Nat) : Nat :=
  if x % 2 ^ w < 2 ^ (w - 1) then x % 2 ^ w else x % 2 ^ w + (2 ^ 32 - 2 ^ w)

/-- The signed value of a `u32` bit pattern (`x as i32`). -/
def toI32 (x : Nat) : Int :=
  if x < 2 ^ 31 then (x : Int) else (x : Int) - 2 ^ 32

/-- `u32::wrapping_add` (also the bit pattern of `i32::wrapping_add`). -/
def add32 (a b : Nat) : Nat := (a + b) % 2 ^ 32

/-- `u32::wrapping_sub` / `(a as i32 - b as i32) as u32` for `a, b < 2^32`. -/
def sub32 (a b : Nat) : Nat := (a + (2 ^ 32 - b % 2 ^ 32)) % 2 ^ 32

/-- `((a as i32) >> sh) as u32` for `a < 2^32`, `sh < 32`: arithmetic
right shift. -/
def sra32 (a sh : Nat) : Nat :=
  (a / 2 ^ sh + if a < 2 ^ 31 then 0 else 2 ^ 32 - 2 ^ (32 - sh)) % 2 ^ 32

/-- Little-endian value of a byte list (how `byteorder::LittleEndian`
reassembles the words written by `write_bytes`). -/
def leWord : List Nat → Nat
  | [] => 0
  | b :: rest => b + 256 * leWord rest

/-- The opcode enumeration of `src/instr.rs` (`enum OpCode`). -/
inductive OpCode where
  | ADD | SUB | AND | OR | XOR | SLL | SRL | SRA
  | ADDI | ANDI | ORI | XORI | SLLI | SRLI | SRAI
  | BEZ | BNZ | BEQ | BNE | BLT | BGE | BLT_U | BGE_U
  | LI | LUI | LOAD | STORE | CALL | BREAK
  | C_ADD | C_SUB | C_AND | C_OR | C_XOR | C_SLL | C_SRL | C_SRA
  | C_ADDI | C_ANDI | C_ORI | C_XORI | C_SLLI | C_SRLI | C_SRAI
  | C_BEZ | C_BNZ | C_LI | C_LUI | C_LOAD | C_STORE
  | MV | C_CALL | C_BREAK
  deriving DecidableEq, Repr

/-- The `#[repr(u32)]` discriminant of each opcode. -/
def OpCode.val : OpCode → Nat
  | .ADD => 0x02 | .SUB => 0x04 | .AND => 0x06 | .OR => 0x08
  | .XOR => 0x0a | .SLL => 0x0c | .SRL => 0x0e | .SRA => 0x10
  | .ADDI => 0x12 | .ANDI => 0x14 | .ORI => 0x16 | .XORI => 0x18
  | .SLLI => 0x1a | .SRLI => 0x1c | .SRAI => 0x1e
  | .BEZ => 0x20 | .BNZ => 0x22 | .BEQ => 0x24 | .BNE => 0x26
  | .BLT => 0x28 | .BGE => 0x2a | .BLT_U => 0x2c | .BGE_U => 0x2e
  | .LI => 0x30 | .LUI => 0x32 | .LOAD => 0x34 | .STORE => 0x36
  | .CALL => 0x3c | .BREAK => 0x3e
  | .C_ADD => 0x03 | .C_SUB => 0x05 | .C_AND => 0x07 | .C_OR => 0x09
  | .C_XOR => 0x0b | .C_SLL => 0x0d | .C_SRL => 0x0f | .C_SRA => 0x11
  | .C_ADDI => 0x13 | .C_ANDI => 0x15 | .C_ORI => 0x17 | .C_XORI => 0x19
  | .C_SLLI => 0x1b | .C_SRLI => 0x1d | .C_SRAI => 0x1f
  | .C_BEZ => 0x21 | .C_BNZ => 0x23 | .C_LI => 0x31 | .C_LUI => 0x33
  | .C_LOAD => 0x35 | .C_STORE => 0x37
  | .MV => 0x39 | .C_CALL => 0x3d | .C_BREAK => 0x3f

/-- `OpCode::from_discriminant` (derived by `EnumDiscriminant`): the 40
valid discriminants map back to their opcode, everything else (0x00, 0x01,
0x25..0x2f odd, 0x38, 0x3a, 0x3b) is `None`. -/
def OpCode.fromDiscriminant : Nat → Option OpCode
  | 0x02 => some .ADD | 0x04 => some .SUB | 0x06 => some .AND
  | 0x08 => some .OR | 0x0a => some .XOR | 0x0c => some .SLL
  | 0x0e => some .SRL | 0x10 => some .SRA
  | 0x12 => some .ADDI | 0x14 => some .ANDI | 0x16 => some .ORI
  | 0x18 => some .XORI | 0x1a => some .SLLI | 0x1c => some .SRLI
  | 0x1e => some .SRAI
  | 0x20 => some .BEZ | 0x22 => some .BNZ | 0x24 => some .BEQ
  | 0x26 => some .BNE | 0x28 => some .BLT | 0x2a => some .BGE
  | 0x2c => some .BLT_U | 0x2e => some .BGE_U
  | 0x30 => some .LI | 0x32 => some .LUI | 0x34 => some .LOAD
  | 0x36 => some .STORE | 0x3c => some .CALL | 0x3e => some .BREAK
  | 0x03 => some .C_ADD | 0x05 => some .C_SUB | 0x07 => some .C_AND
  | 0x09 => some .C_OR | 0x0b => some .C_XOR | 0x0d => some .C_SLL
  | 0x0f => some .C_SRL | 0x11 => some .C_SRA
  | 0x13 => some .C_ADDI | 0x15 => some .C_ANDI | 0x17 => some .C_ORI
  | 0x19 => some .C_XORI | 0x1b => some .C_SLLI | 0x1d => some .C_SRLI
  | 0x1f => some .C_SRAI
  | 0x21 => some .C_BEZ | 0x23 => some .C_BNZ | 0x31 => some .C_LI
  | 0x33 => some .C_LUI | 0x35 => some .C_LOAD | 0x37 => some .C_STORE
  | 0x39 => some .MV | 0x3d => some .C_CALL | 0x3f => some .C_BREAK
  | _ => none

/-- The error enumeration of `src/error.rs`. -/
inductive Err where
  | programTooLarge
  | invalidOpCode (bits : Nat)
  | invalidSysCall (call : Nat)
  deriving DecidableEq, Repr

/-- Decoded instruction representation (`enum Instruction`). -/
inductive Instruction where
  | Register (op : OpCode) (dst src1 src2 : Nat)
  | Immediate (op : OpCode) (dst src1 : Nat) (imm : Nat)
  | Store (op : OpCode) (src1 src2 : Nat) (imm : Nat)
  | Upper (op : OpCode) (dst : Nat) (imm : Nat)
  deriving DecidableEq, Repr

/-- `Instruction::size`: 4 bytes for even discriminants, 2 for odd ones. -/
def Instruction.size : Instruction → Nat
  | .Register op _ _ _ | .Immediate op _ _ _ | .Store op _ _ _
  | .Upper op _ _ => if op.val % 2 = 0 then 4 else 2

/-- The 32-bit (or 16-bit, for compressed instructions) word assembled by
`Instruction::write_bytes` before it is serialised.  Masked shifts of the
source, for instance `((dst as u32) << DST_REG_SHIFT) & DST_REG_MASK`
(5 bits at bit 6), appear as `dst % 32 * 2^6`. -/
def Instruction.encWord : Instruction → Nat
  | .Register op dst src1 src2 =>
    if op.val % 2 = 0 then
      -- wide R layout: dst at bits 6-10, src1 at 11-15, src2 at 16-20
      op.val + dst % 32 * 2 ^ 6 + src1 % 32 * 2 ^ 11 + src2 % 32 * 2 ^ 16
    else
      -- compressed R layout: dst at bits 6-10, src2 at bits 11-15
      op.val + dst % 32 * 2 ^ 6 + src2 % 32 * 2 ^ 11
  | .Immediate op dst src1 imm =>
    if op.val % 2 = 0 then
      -- wide I layout: imm low 16 bits at bits 16-31
      op.val + dst % 32 * 2 ^ 6 + src1 % 32 * 2 ^ 11 + imm % 2 ^ 16 * 2 ^ 16
    else if op = .C_LOAD then
      -- CL layout: dst at bits 6-7, src1 at 11-12,
      -- imm[3:1] at bits 8-10, imm[6:4] at bits 13-15
      op.val + dst % 4 * 2 ^ 6 + src1 % 4 * 2 ^ 11 +
        imm / 2 % 8 * 2 ^ 8 + imm / 16 % 8 * 2 ^ 13
    else
      -- CI layout: dst at bits 6-8, imm low 7 bits at bits 9-15
      op.val + dst % 8 * 2 ^ 6 + imm % 2 ^ 7 * 2 ^ 9
  | .Store op src1 src2 imm =>
    if op.val % 2 = 0 then
      -- wide S layout: src1 at 11-15, src2 at 16-20,
      -- imm[4:0] at bits 6-10, imm[15:5] at bits 21-31
      op.val + src1 % 32 * 2 ^ 11 + src2 % 32 * 2 ^ 16 +
        imm % 32 * 2 ^ 6 + imm / 32 % 2 ^ 11 * 2 ^ 21
    else
      -- CS layout: src1 at bits 6-7, src2 at 11-12,
      -- imm[3:1] at bits 8-10, imm[6:4] at bits 13-15
      op.val + src1 % 4 * 2 ^ 6 + src2 % 4 * 2 ^ 11 +
        imm / 2 % 8 * 2 ^ 8 + imm / 16 % 8 * 2 ^ 13
  | .Upper op dst imm =>
    if op.val % 2 = 0 then
      -- wide U layout: imm's upper half stored at bits 16-31
      op.val + dst % 32 * 2 ^ 6 + imm / 2 ^ 16 % 2 ^ 16 * 2 ^ 16
    else
      -- CU layout: dst at bits 6-8, imm bits 16-22 at bits 9-15
      op.val + dst % 8 * 2 ^ 6 + imm / 2 ^ 16 % 2 ^ 7 * 2 ^ 9

/-- `Instruction::write_bytes`: 2 little-endian bytes (`write_u16`, after
an `as u16` truncation) for compressed instructions, 4 (`write_u32`) for
wide ones. -/
def Instruction.writeBytes (i : Instruction) : List Nat :=
  let w := i.encWord
  if i.size = 2 then
    [w % 2 ^ 16 % 256, w % 2 ^ 16 / 256 % 256]
  else
    [w % 256, w / 256 % 256, w / 2 ^ 16 % 256, w / 2 ^ 24 % 256]

set_option maxHeartbeats 1600000 in
/-- The per-opcode decoding of `<Instruction as TryFrom<u32>>::try_from`
after the opcode has been recognised.  Field extractions
`(instr & MASK) >> SHIFT` appear as `instr / 2^SHIFT % 2^WIDTH`; the
arithmetic-shift sign extensions appear as `sext`. -/
def decodeBody (op : OpCode) (instr : Nat) : Instruction :=
  match op with
  | .ADD | .SUB | .AND | .OR | .XOR | .SLL | .SRL | .SRA =>
    .Register op (instr / 2 ^ 6 % 32) (instr / 2 ^ 11 % 32) (instr / 2 ^ 16 % 32)
  | .ADDI | .ANDI | .ORI | .XORI | .SLLI | .SRLI | .SRAI
  | .BEZ | .BNZ | .LI | .LOAD | .CALL | .BREAK =>
    .Immediate op (instr / 2 ^ 6 % 32) (instr / 2 ^ 11 % 32)
      (sext 16 (instr / 2 ^ 16 % 2 ^ 16))
  | .STORE | .BEQ | .BNE | .BGE | .BLT | .BGE_U | .BLT_U =>
    -- imm = ((instr & IMM_STORE_MASK1) >> 6) | sign-extended bits 21-31
    .Store op (instr / 2 ^ 11 % 32) (instr / 2 ^ 16 % 32)
      (sext 16 (instr / 2 ^ 6 % 32 + 32 * (instr / 2 ^ 21 % 2 ^ 11)))
  | .LUI =>
    .Upper op (instr / 2 ^ 6 % 32) (instr / 2 ^ 16 % 2 ^ 16 * 2 ^ 16)
  | .C_ADD | .C_SUB | .C_AND | .C_OR | .C_XOR | .C_SLL | .C_SRL | .C_SRA
  | .MV =>
    .Register op (instr / 2 ^ 6 % 32) (instr / 2 ^ 6 % 32) (instr / 2 ^ 11 % 32)
  | .C_ADDI | .C_ANDI | .C_ORI | .C_XORI | .C_SLLI | .C_SRLI | .C_SRAI
  | .C_BEZ | .C_BNZ | .C_LI | .C_CALL | .C_BREAK =>
    .Immediate op (instr / 2 ^ 6 % 8) (instr / 2 ^ 6 % 8)
      (sext 7 (instr / 2 ^ 9 % 2 ^ 7))
  | .C_LOAD =>
    -- imm = ((instr & C_IMM_STORE_MASK1) >> 7) | sign-extended bits 13-15
    .Immediate op (instr / 2 ^ 6 % 4) (instr / 2 ^ 11 % 4)
      (sext 7 (2 * (instr / 2 ^ 8 % 8) + 16 * (instr / 2 ^ 13 % 8)))
  | .C_STORE =>
    .Store op (instr / 2 ^ 6 % 4) (instr / 2 ^ 11 % 4)
      (sext 7 (2 * (instr / 2 ^ 8 % 8) + 16 * (instr / 2 ^ 13 % 8)))
  | .C_LUI =>
    .Upper op (instr / 2 ^ 6 % 8) (sext 23 (instr / 2 ^ 9 % 2 ^ 7 * 2 ^ 16))

/-- `<Instruction as TryFrom<u32>>::try_from`: recognise the low 6 bits as
an opcode (`InvalidOpCode` otherwise), then decode the fields. -/
def decode (instr : Nat) : Except Err Instruction :=
  match OpCode.fromDiscriminant (instr % 64) with
  | none => .error (.invalidOpCode (instr % 64))
  | some op => .ok (decodeBody op instr)

/-! ### Validity of decoded instructions

`Instruction.wellFormed` captures exactly the instruction values that the
encoder can represent: the shape matches the opcode's decode group, the
register fields fit the encoded field widths, and the immediate is the
sign extension of its encoded field. -/

/-- Opcodes decoded as wide R-shape. -/
@[reducible] def isWideR (op : OpCode) : Prop :=
  op ∈ ([.ADD, .SUB, .AND, .OR, .XOR, .SLL, .SRL, .SRA] : List OpCode)

/-- Opcodes decoded as compressed R-shape (two-address, `src1 = dst`). -/
@[reducible] def isCR (op : OpCode) : Prop :=
  op ∈ ([.C_ADD, .C_SUB, .C_AND, .C_OR, .C_XOR, .C_SLL, .C_SRL, .C_SRA,
    .MV] : List OpCode)

/-- Opcodes decoded as wide I-shape. -/
@[reducible] def isWideI (op : OpCode) : Prop :=
  op ∈ ([.ADDI, .ANDI, .ORI, .XORI, .SLLI, .SRLI, .SRAI, .BEZ, .BNZ, .LI,
    .LOAD, .CALL, .BREAK] : List OpCode)

/-- Opcodes decoded as compressed CI-shape (`src1 = dst`). -/
@[reducible] def isCI (op : OpCode) : Prop :=
  op ∈ ([.C_ADDI, .C_ANDI, .C_ORI, .C_XORI, .C_SLLI, .C_SRLI, .C_SRAI,
    .C_BEZ, .C_BNZ, .C_LI, .C_CALL, .C_BREAK] : List OpCode)

/-- Opcodes decoded as wide S-shape. -/
@[reducible] def isWideS (op : OpCode) : Prop :=
  op ∈ ([.STORE, .BEQ, .BNE, .BLT, .BGE, .BLT_U, .BGE_U] : List OpCode)

/-- Valid instruction values: every opcode of the closed set with every
register index and immediate representable in that opcode's encoded field
widths (immediates sign-extended where the encoded field is narrower than
32 bits; the CL/CS layouts force immediate bit 0 to zero; the upper
shapes force the low half to zero). -/
@[reducible] def Instruction.wellFormed : Instruction → Prop
  | .Register op dst src1 src2 =>
    (isWideR op ∧ dst < 32 ∧ src1 < 32 ∧ src2 < 32) ∨
    (isCR op ∧ dst < 32 ∧ src1 = dst ∧ src2 < 32)
  | .Immediate op dst src1 imm =>
    (isWideI op ∧ dst < 32 ∧ src1 < 32 ∧ imm = sext 16 imm) ∨
    (isCI op ∧ dst < 8 ∧ src1 = dst ∧ imm = sext 7 imm) ∨
    (op = .C_LOAD ∧ dst < 4 ∧ src1 < 4 ∧ imm % 2 = 0 ∧ imm = sext 7 imm)
  | .Store op src1 src2 imm =>
    (isWideS op ∧ src1 < 32 ∧ src2 < 32 ∧ imm = sext 16 imm) ∨
    (op = .C_STORE ∧ src1 < 4 ∧ src2 < 4 ∧ imm % 2 = 0 ∧ imm = sext 7 imm)
  | .Upper op dst imm =>
    (op = .LUI ∧ dst < 32 ∧ imm < 2 ^ 32 ∧ imm % 2 ^ 16 = 0) ∨
    (op = .C_LUI ∧ dst < 8 ∧ imm % 2 ^ 16 = 0 ∧ imm = sext 23 imm)

theorem sext_mod (w x : Nat) : sext w (x % 2 ^ w) = sext w x := by
  unfold sext
  rw [Nat.mod_mod_of_dvd x dvd_rfl]

theorem leWord_writeBytes (i : Instruction) :
    leWord i.writeBytes =
      if i.size = 2 then i.encWord % 2 ^ 16 else i.encWord % 2 ^ 32 := by
  unfold Instruction.writeBytes
  split
  · simp [leWord]; omega
  · simp [leWord]; omega

theorem leWord_writeBytes2 (i : Instruction) (h : i.size = 2) :
    leWord i.writeBytes = i.encWord % 2 ^ 16 := by
  rw [leWord_writeBytes, if_pos h]

theorem leWord_writeBytes4 (i : Instruction) (h : i.size = 4) :
    leWord i.writeBytes = i.encWord % 2 ^ 32 := by
  rw [leWord_writeBytes, if_neg (by rw [h]; omega)]

theorem rt_wideR (op : OpCode) (dst src1 src2 : Nat)
    (hd : dst < 32) (h1 : src1 < 32) (h2 : src2 < 32)
    (hpar : op.val % 2 = 0) (hval : op.val < 64)
    (hdisc : OpCode.fromDiscriminant op.val = some op)
    (hbody : ∀ w, decodeBody op w =
      .Register op (w / 2 ^ 6 % 32) (w / 2 ^ 11 % 32) (w / 2 ^ 16 % 32)) :
    decode (leWord (Instruction.Register op dst src1 src2).writeBytes) =
      .ok (.Register op dst src1 src2) := by
  have hsize : (Instruction.Register op dst src1 src2).size = 4 := by
    simp only [Instruction.size]
    rw [if_pos hpar]
  have hw : (Instruction.Register op dst src1 src2).encWord =
      op.val + dst * 2 ^ 6 + src1 * 2 ^ 11 + src2 * 2 ^ 16 := by
    simp only [Instruction.encWord]
    rw [if_pos hpar, Nat.mod_eq_of_lt hd, Nat.mod_eq_of_lt h1,
      Nat.mod_eq_of_lt h2]
  rw [leWord_writeBytes4 _ hsize, hw]
  have hlt : op.val + dst * 2 ^ 6 + src1 * 2 ^ 11 + src2 * 2 ^ 16 < 2 ^ 32 := by
    omega
  have hmod : (op.val + dst * 2 ^ 6 + src1 * 2 ^ 11 + src2 * 2 ^ 16) % 64 =
      op.val := by omega
  rw [Nat.mod_eq_of_lt hlt]
  simp only [decode, hmod, hdisc, hbody]
  have e1 : (op.val + dst * 2 ^ 6 + src1 * 2 ^ 11 + src2 * 2 ^ 16) / 2 ^ 6
      % 32 = dst := by omega
  have e2 : (op.val + dst * 2 ^ 6 + src1 * 2 ^ 11 + src2 * 2 ^ 16) / 2 ^ 11
      % 32 = src1 := by omega
  have e3 : (op.val + dst * 2 ^ 6 + src1 * 2 ^ 11 + src2 * 2 ^ 16) / 2 ^ 16
      % 32 = src2 := by omega
  rw [e1, e2, e3]

theorem rt_cr (op : OpCode) (dst src2 : Nat)
    (hd : dst < 32) (h2 : src2 < 32)
    (hpar : op.val % 2 = 1) (hval : op.val < 64)
    (hdisc : OpCode.fromDiscriminant op.val = some op)
    (hbody : ∀ w, decodeBody op w =
      .Register op (w / 2 ^ 6 % 32) (w / 2 ^ 6 % 32) (w / 2 ^ 11 % 32)) :
    decode (leWord (Instruction.Register op dst dst src2).writeBytes) =
      .ok (.Register op dst dst src2) := by
  have hsize : (Instruction.Register op dst dst src2).size = 2 := by
    simp only [Instruction.size]
    rw [if_neg (by omega)]
  have hw : (Instruction.Register op dst dst src2).encWord =
      op.val + dst * 2 ^ 6 + src2 * 2 ^ 11 := by
    simp only [Instruction.encWord]
    rw [if_neg (by omega), Nat.mod_eq_of_lt hd, Nat.mod_eq_of_lt h2]
  rw [leWord_writeBytes2 _ hsize, hw]
  have hlt : op.val + dst * 2 ^ 6 + src2 * 2 ^ 11 < 2 ^ 16 := by omega
  have hmod : (op.val + dst * 2 ^ 6 + src2 * 2 ^ 11) % 64 = op.val := by
    omega
  rw [Nat.mod_eq_of_lt hlt]
  simp only [decode, hmod, hdisc, hbody]
  have e1 : (op.val + dst * 2 ^ 6 + src2 * 2 ^ 11) / 2 ^ 6 % 32 = dst := by
    omega
  have e2 : (op.val + dst * 2 ^ 6 + src2 * 2 ^ 11) / 2 ^ 11 % 32 = src2 := by
    omega
  rw [e1, e2]

theorem rt_wideI (op : OpCode) (dst src1 imm : Nat)
    (hd : dst < 32) (h1 : src1 < 32) (hi : imm = sext 16 imm)
    (hpar : op.val % 2 = 0) (hval : op.val < 64)
    (hdisc : OpCode.fromDiscriminant op.val = some op)
    (hbody : ∀ w, decodeBody op w = .Immediate op (w / 2 ^ 6 % 32)
      (w / 2 ^ 11 % 32) (sext 16 (w / 2 ^ 16 % 2 ^ 16))) :
    decode (leWord (Instruction.Immediate op dst src1 imm).writeBytes) =
      .ok (.Immediate op dst src1 imm) := by
  have hsize : (Instruction.Immediate op dst src1 imm).size = 4 := by
    simp only [Instruction.size]
    rw [if_pos hpar]
  have hw : (Instruction.Immediate op dst src1 imm).encWord =
      op.val + dst * 2 ^ 6 + src1 * 2 ^ 11 + imm % 2 ^ 16 * 2 ^ 16 := by
    simp only [Instruction.encWord]
    rw [if_pos hpar, Nat.mod_eq_of_lt hd, Nat.mod_eq_of_lt h1]
  rw [leWord_writeBytes4 _ hsize, hw]
  have hlt : op.val + dst * 2 ^ 6 + src1 * 2 ^ 11 + imm % 2 ^ 16 * 2 ^ 16 <
      2 ^ 32 := by omega
  have hmod : (op.val + dst * 2 ^ 6 + src1 * 2 ^ 11 + imm % 2 ^ 16 * 2 ^ 16)
      % 64 = op.val := by omega
  rw [Nat.mod_eq_of_lt hlt]
  simp only [decode, hmod, hdisc, hbody]
  have e1 : (op.val + dst * 2 ^ 6 + src1 * 2 ^ 11 + imm % 2 ^ 16 * 2 ^ 16) /
      2 ^ 6 % 32 = dst := by omega
  have e2 : (op.val + dst * 2 ^ 6 + src1 * 2 ^ 11 + imm % 2 ^ 16 * 2 ^ 16) /
      2 ^ 11 % 32 = src1 := by omega
  have e3 : (op.val + dst * 2 ^ 6 + src1 * 2 ^ 11 + imm % 2 ^ 16 * 2 ^ 16) /
      2 ^ 16 % 2 ^ 16 = imm % 2 ^ 16 := by omega
  rw [e1, e2, e3, sext_mod, ← hi]

theorem rt_ci (op : OpCode) (dst imm : Nat)
    (hd : dst < 8) (hi : imm = sext 7 imm)
    (hpar : op.val % 2 = 1) (hval : op.val < 64) (hne : ¬ op = .C_LOAD)
    (hdisc : OpCode.fromDiscriminant op.val = some op)
    (hbody : ∀ w, decodeBody op w = .Immediate op (w / 2 ^ 6 % 8)
      (w / 2 ^ 6 % 8) (sext 7 (w / 2 ^ 9 % 2 ^ 7))) :
    decode (leWord (Instruction.Immediate op dst dst imm).writeBytes) =
      .ok (.Immediate op dst dst imm) := by
  have hsize : (Instruction.Immediate op dst dst imm).size = 2 := by
    simp only [Instruction.size]
    rw [if_neg (by omega)]
  have hw : (Instruction.Immediate op dst dst imm).encWord =
      op.val + dst * 2 ^ 6 + imm % 2 ^ 7 * 2 ^ 9 := by
    simp only [Instruction.encWord]
    rw [if_neg (by omega), if_neg hne, Nat.mod_eq_of_lt hd]
  rw [leWord_writeBytes2 _ hsize, hw]
  have hlt : op.val + dst * 2 ^ 6 + imm % 2 ^ 7 * 2 ^ 9 < 2 ^ 16 := by omega
  have hmod : (op.val + dst * 2 ^ 6 + imm % 2 ^ 7 * 2 ^ 9) % 64 = op.val := by
    omega
  rw [Nat.mod_eq_of_lt hlt]
  simp only [decode, hmod, hdisc, hbody]
  have e1 : (op.val + dst * 2 ^ 6 + imm % 2 ^ 7 * 2 ^ 9) / 2 ^ 6 % 8 =
      dst := by omega
  have e2 : (op.val + dst * 2 ^ 6 + imm % 2 ^ 7 * 2 ^ 9) / 2 ^ 9 % 2 ^ 7 =
      imm % 2 ^ 7 := by omega
  rw [e1, e2, sext_mod, ← hi]

theorem rt_cload (dst src1 imm : Nat)
    (hd : dst < 4) (h1 : src1 < 4) (hev : imm % 2 = 0)
    (hi : imm = sext 7 imm) :
    decode (leWord (Instruction.Immediate .C_LOAD dst src1 imm).writeBytes) =
      .ok (.Immediate .C_LOAD dst src1 imm) := by
  have hw : (Instruction.Immediate .C_LOAD dst src1 imm).encWord =
      53 + dst * 2 ^ 6 + src1 * 2 ^ 11 + imm / 2 % 8 * 2 ^ 8 +
        imm / 16 % 8 * 2 ^ 13 := by
    simp only [Instruction.encWord, OpCode.val, if_true, if_false]
    rw [Nat.mod_eq_of_lt hd, Nat.mod_eq_of_lt h1]
    norm_num
  have hsize : (Instruction.Immediate .C_LOAD dst src1 imm).size = 2 := by
    simp only [Instruction.size, OpCode.val, if_true, if_false]
    norm_num
  rw [leWord_writeBytes2 _ hsize, hw]
  have hlt : 53 + dst * 2 ^ 6 + src1 * 2 ^ 11 + imm / 2 % 8 * 2 ^ 8 +
      imm / 16 % 8 * 2 ^ 13 < 2 ^ 16 := by omega
  have hmod : (53 + dst * 2 ^ 6 + src1 * 2 ^ 11 + imm / 2 % 8 * 2 ^ 8 +
      imm / 16 % 8 * 2 ^ 13) % 64 = 53 := by omega
  rw [Nat.mod_eq_of_lt hlt]
  simp only [decode, hmod]
  show Except.ok (decodeBody .C_LOAD _) = _
  simp only [decodeBody]
  have e1 : (53 + dst * 2 ^ 6 + src1 * 2 ^ 11 + imm / 2 % 8 * 2 ^ 8 +
      imm / 16 % 8 * 2 ^ 13) / 2 ^ 6 % 4 = dst := by omega
  have e2 : (53 + dst * 2 ^ 6 + src1 * 2 ^ 11 + imm / 2 % 8 * 2 ^ 8 +
      imm / 16 % 8 * 2 ^ 13) / 2 ^ 11 % 4 = src1 := by omega
  have e3 : 2 * ((53 + dst * 2 ^ 6 + src1 * 2 ^ 11 + imm / 2 % 8 * 2 ^ 8 +
      imm / 16 % 8 * 2 ^ 13) / 2 ^ 8 % 8) +
      16 * ((53 + dst * 2 ^ 6 + src1 * 2 ^ 11 + imm / 2 % 8 * 2 ^ 8 +
      imm / 16 % 8 * 2 ^ 13) / 2 ^ 13 % 8) = imm % 2 ^ 7 := by omega
  rw [e1, e2, e3, sext_mod, ← hi]

theorem rt_wideS (op : OpCode) (src1 src2 imm : Nat)
    (h1 : src1 < 32) (h2 : src2 < 32) (hi : imm = sext 16 imm)
    (hpar : op.val % 2 = 0) (hval : op.val < 64)
    (hdisc : OpCode.fromDiscriminant op.val = some op)
    (hbody : ∀ w, decodeBody op w = .Store op (w / 2 ^ 11 % 32)
      (w / 2 ^ 16 % 32)
      (sext 16 (w / 2 ^ 6 % 32 + 32 * (w / 2 ^ 21 % 2 ^ 11)))) :
    decode (leWord (Instruction.Store op src1 src2 imm).writeBytes) =
      .ok (.Store op src1 src2 imm) := by
  have hsize : (Instruction.Store op src1 src2 imm).size = 4 := by
    simp only [Instruction.size]
    rw [if_pos hpar]
  have hw : (Instruction.Store op src1 src2 imm).encWord =
      op.val + src1 * 2 ^ 11 + src2 * 2 ^ 16 + imm % 32 * 2 ^ 6 +
        imm / 32 % 2 ^ 11 * 2 ^ 21 := by
    simp only [Instruction.encWord]
    rw [if_pos hpar, Nat.mod_eq_of_lt h1, Nat.mod_eq_of_lt h2]
  rw [leWord_writeBytes4 _ hsize, hw]
  have hlt : op.val + src1 * 2 ^ 11 + src2 * 2 ^ 16 + imm % 32 * 2 ^ 6 +
      imm / 32 % 2 ^ 11 * 2 ^ 21 < 2 ^ 32 := by omega
  have hmod : (op.val + src1 * 2 ^ 11 + src2 * 2 ^ 16 + imm % 32 * 2 ^ 6 +
      imm / 32 % 2 ^ 11 * 2 ^ 21) % 64 = op.val := by omega
  rw [Nat.mod_eq_of_lt hlt]
  simp only [decode, hmod, hdisc, hbody]
  have e1 : (op.val + src1 * 2 ^ 11 + src2 * 2 ^ 16 + imm % 32 * 2 ^ 6 +
      imm / 32 % 2 ^ 11 * 2 ^ 21) / 2 ^ 11 % 32 = src1 := by omega
  have e2 : (op.val + src1 * 2 ^ 11 + src2 * 2 ^ 16 + imm % 32 * 2 ^ 6 +
      imm / 32 % 2 ^ 11 * 2 ^ 21) / 2 ^ 16 % 32 = src2 := by omega
  have f1 : (op.val + src1 * 2 ^ 11 + src2 * 2 ^ 16 + imm % 32 * 2 ^ 6 +
      imm / 32 % 2 ^ 11 * 2 ^ 21) / 2 ^ 6 % 32 = imm % 32 := by omega
  have f2 : (op.val + src1 * 2 ^ 11 + src2 * 2 ^ 16 + imm % 32 * 2 ^ 6 +
      imm / 32 % 2 ^ 11 * 2 ^ 21) / 2 ^ 21 % 2 ^ 11 = imm / 32 % 2 ^ 11 := by
    omega
  have f3 : imm % 32 + 32 * (imm / 32 % 2 ^ 11) = imm % 2 ^ 16 := by omega
  rw [e1, e2, f1, f2, f3, sext_mod, ← hi]

theorem rt_cs (src1 src2 imm : Nat)
    (h1 : src1 < 4) (h2 : src2 < 4) (hev : imm % 2 = 0)
    (hi : imm = sext 7 imm) :
    decode (leWord (Instruction.Store .C_STORE src1 src2 imm).writeBytes) =
      .ok (.Store .C_STORE src1 src2 imm) := by
  have hw : (Instruction.Store .C_STORE src1 src2 imm).encWord =
      55 + src1 * 2 ^ 6 + src2 * 2 ^ 11 + imm / 2 % 8 * 2 ^ 8 +
        imm / 16 % 8 * 2 ^ 13 := by
    simp only [Instruction.encWord, OpCode.val, if_true, if_false]
    rw [Nat.mod_eq_of_lt h1, Nat.mod_eq_of_lt h2]
    norm_num
  have hsize : (Instruction.Store .C_STORE src1 src2 imm).size = 2 := by
    simp only [Instruction.size, OpCode.val, if_true, if_false]
    norm_num
  rw [leWord_writeBytes2 _ hsize, hw]
  have hlt : 55 + src1 * 2 ^ 6 + src2 * 2 ^ 11 + imm / 2 % 8 * 2 ^ 8 +
      imm / 16 % 8 * 2 ^ 13 < 2 ^ 16 := by omega
  have hmod : (55 + src1 * 2 ^ 6 + src2 * 2 ^ 11 + imm / 2 % 8 * 2 ^ 8 +
      imm / 16 % 8 * 2 ^ 13) % 64 = 55 := by omega
  rw [Nat.mod_eq_of_lt hlt]
  simp only [decode, hmod]
  show Except.ok (decodeBody .C_STORE _) = _
  simp only [decodeBody]
  have e1 : (55 + src1 * 2 ^ 6 + src2 * 2 ^ 11 + imm / 2 % 8 * 2 ^ 8 +
      imm / 16 % 8 * 2 ^ 13) / 2 ^ 6 % 4 = src1 := by omega
  have e2 : (55 + src1 * 2 ^ 6 + src2 * 2 ^ 11 + imm / 2 % 8 * 2 ^ 8 +
      imm / 16 % 8 * 2 ^ 13) / 2 ^ 11 % 4 = src2 := by omega
  have e3 : 2 * ((55 + src1 * 2 ^ 6 + src2 * 2 ^ 11 + imm / 2 % 8 * 2 ^ 8 +
      imm / 16 % 8 * 2 ^ 13) / 2 ^ 8 % 8) +
      16 * ((55 + src1 * 2 ^ 6 + src2 * 2 ^ 11 + imm / 2 % 8 * 2 ^ 8 +
      imm / 16 % 8 * 2 ^ 13) / 2 ^ 13 % 8) = imm % 2 ^ 7 := by omega
  rw [e1, e2, e3, sext_mod, ← hi]

theorem rt_lui (dst imm : Nat)
    (hd : dst < 32) (hlt32 : imm < 2 ^ 32) (hlo : imm % 2 ^ 16 = 0) :
    decode (leWord (Instruction.Upper .LUI dst imm).writeBytes) =
      .ok (.Upper .LUI dst imm) := by
  have hw : (Instruction.Upper .LUI dst imm).encWord =
      50 + dst * 2 ^ 6 + imm / 2 ^ 16 % 2 ^ 16 * 2 ^ 16 := by
    simp only [Instruction.encWord, OpCode.val, if_true, if_false]
    rw [Nat.mod_eq_of_lt hd]
  have hsize : (Instruction.Upper .LUI dst imm).size = 4 := by
    simp only [Instruction.size, OpCode.val, if_true, if_false]
  rw [leWord_writeBytes4 _ hsize, hw]
  have hlt : 50 + dst * 2 ^ 6 + imm / 2 ^ 16 % 2 ^ 16 * 2 ^ 16 < 2 ^ 32 := by
    omega
  have hmod : (50 + dst * 2 ^ 6 + imm / 2 ^ 16 % 2 ^ 16 * 2 ^ 16) % 64 =
      50 := by omega
  rw [Nat.mod_eq_of_lt hlt]
  simp only [decode, hmod]
  show Except.ok (decodeBody .LUI _) = _
  simp only [decodeBody]
  have e1 : (50 + dst * 2 ^ 6 + imm / 2 ^ 16 % 2 ^ 16 * 2 ^ 16) / 2 ^ 6 %
      32 = dst := by omega
  have e2 : (50 + dst * 2 ^ 6 + imm / 2 ^ 16 % 2 ^ 16 * 2 ^ 16) / 2 ^ 16 %
      2 ^ 16 * 2 ^ 16 = imm := by omega
  rw [e1, e2]

theorem rt_clui (dst imm : Nat)
    (hd : dst < 8) (hlo : imm % 2 ^ 16 = 0) (hi : imm = sext 23 imm) :
    decode (leWord (Instruction.Upper .C_LUI dst imm).writeBytes) =
      .ok (.Upper .C_LUI dst imm) := by
  have hw : (Instruction.Upper .C_LUI dst imm).encWord =
      51 + dst * 2 ^ 6 + imm / 2 ^ 16 % 2 ^ 7 * 2 ^ 9 := by
    simp only [Instruction.encWord, OpCode.val, if_true, if_false]
    rw [Nat.mod_eq_of_lt hd]
    norm_num
  have hsize : (Instruction.Upper .C_LUI dst imm).size = 2 := by
    simp only [Instruction.size, OpCode.val, if_true, if_false]
    norm_num
  rw [leWord_writeBytes2 _ hsize, hw]
  have hlt : 51 + dst * 2 ^ 6 + imm / 2 ^ 16 % 2 ^ 7 * 2 ^ 9 < 2 ^ 16 := by
    omega
  have hmod : (51 + dst * 2 ^ 6 + imm / 2 ^ 16 % 2 ^ 7 * 2 ^ 9) % 64 =
      51 := by omega
  rw [Nat.mod_eq_of_lt hlt]
  simp only [decode, hmod]
  show Except.ok (decodeBody .C_LUI _) = _
  simp only [decodeBody]
  have e1 : (51 + dst * 2 ^ 6 + imm / 2 ^ 16 % 2 ^ 7 * 2 ^ 9) / 2 ^ 6 % 8 =
      dst := by omega
  have e2 : (51 + dst * 2 ^ 6 + imm / 2 ^ 16 % 2 ^ 7 * 2 ^ 9) / 2 ^ 9 %
      2 ^ 7 * 2 ^ 16 = imm % 2 ^ 23 := by omega
  rw [e1, e2, sext_mod, ← hi]

/-- C3: for every valid Instruction value — each opcode of the closed set
with every register index and every immediate representable within that
opcode's encoded field widths (sign-extended where the field is narrower
than 32 bits) — encoding it with `write_bytes` and decoding the resulting
little-endian word with `try_from` returns the identical Instruction. -/
theorem codec_roundtrip (i : Instruction) (h : i.wellFormed) :
    decode (leWord i.writeBytes) = .ok i := by
  cases i with
  | Register op dst src1 src2 =>
    rcases h with ⟨hop, hd, h1, h2⟩ | ⟨hop, hd, h1, h2⟩
    · simp only [isWideR, List.mem_cons, List.not_mem_nil, or_false] at hop
      rcases hop with rfl | rfl | rfl | rfl | rfl | rfl | rfl | rfl <;>
        exact rt_wideR _ _ _ _ hd h1 h2 rfl (by decide) rfl (fun w => rfl)
    · subst h1
      simp only [isCR, List.mem_cons, List.not_mem_nil, or_false] at hop
      rcases hop with rfl | rfl | rfl | rfl | rfl | rfl | rfl | rfl | rfl <;>
        exact rt_cr _ _ _ hd h2 rfl (by decide) rfl (fun w => rfl)
  | Immediate op dst src1 imm =>
    rcases h with ⟨hop, hd, h1, hi⟩ | ⟨hop, hd, h1, hi⟩ |
      ⟨rfl, hd, h1, hev, hi⟩
    · simp only [isWideI, List.mem_cons, List.not_mem_nil, or_false] at hop
      rcases hop with rfl | rfl | rfl | rfl | rfl | rfl | rfl | rfl | rfl |
        rfl | rfl | rfl | rfl <;>
        exact rt_wideI _ _ _ _ hd h1 hi rfl (by decide) rfl (fun w => rfl)
    · subst h1
      simp only [isCI, List.mem_cons, List.not_mem_nil, or_false] at hop
      rcases hop with rfl | rfl | rfl | rfl | rfl | rfl | rfl | rfl | rfl |
        rfl | rfl | rfl <;>
        exact rt_ci _ _ _ hd hi rfl (by decide) (by decide) rfl
          (fun w => rfl)
    · exact rt_cload _ _ _ hd h1 hev hi
  | Store op src1 src2 imm =>
    rcases h with ⟨hop, h1, h2, hi⟩ | ⟨rfl, h1, h2, hev, hi⟩
    · simp only [isWideS, List.mem_cons, List.not_mem_nil, or_false] at hop
      rcases hop with rfl | rfl | rfl | rfl | rfl | rfl | rfl <;>
        exact rt_wideS _ _ _ _ h1 h2 hi rfl (by decide) rfl (fun w => rfl)
    · exact rt_cs _ _ _ h1 h2 hev hi
  | Upper op dst imm =>
    rcases h with ⟨rfl, hd, hlt, hlo⟩ | ⟨rfl, hd, hlo, hi⟩
    · exact rt_lui _ _ hd hlt hlo
    · exact rt_clui _ _ hd hlo hi

theorem codec_roundtrip_witness :
    (Instruction.Store .BEQ 1 2 0xfffffffc).wellFormed ∧
    decode (leWord (Instruction.Store .BEQ 1 2 0xfffffffc).writeBytes) =
      .ok (.Store .BEQ 1 2 0xfffffffc) :=
  ⟨by decide, codec_roundtrip _ (by decide)⟩

/-- C5: decoding the all-ones immediate field yields `0xFFFFFFFF` for the
wide I-shape, the wide S-shape and the compressed CI shape (for every
opcode of those groups), `0xFFFFFFFE` for the CL/CS shapes whose low
immediate bit is forced by the layout, `0xFFFF0000` for LUI, and the
analogous upper-half pattern (`0xFFFF0000`) for C_LUI. -/
theorem allOnes_imm_decode :
    (∀ op : OpCode, isWideI op →
      decode (op.val + 0xffff0000) = .ok (.Immediate op 0 0 0xffffffff)) ∧
    (∀ op : OpCode, isWideS op →
      decode (op.val + 0xffe007c0) = .ok (.Store op 0 0 0xffffffff)) ∧
    (∀ op : OpCode, isCI op →
      decode (op.val + 0xfe00) = .ok (.Immediate op 0 0 0xffffffff)) ∧
    decode 0xe735 = .ok (.Immediate .C_LOAD 0 0 0xfffffffe) ∧
    decode 0xe737 = .ok (.Store .C_STORE 0 0 0xfffffffe) ∧
    decode 0xffff0032 = .ok (.Upper .LUI 0 0xffff0000) ∧
    decode 0xfe33 = .ok (.Upper .C_LUI 0 0xffff0000) := by
  refine ⟨fun op hop => ?_, fun op hop => ?_, fun op hop => ?_,
    rfl, rfl, rfl, rfl⟩
  · simp only [isWideI, List.mem_cons, List.not_mem_nil, or_false] at hop
    rcases hop with rfl | rfl | rfl | rfl | rfl | rfl | rfl | rfl | rfl |
      rfl | rfl | rfl | rfl <;> rfl
  · simp only [isWideS, List.mem_cons, List.not_mem_nil, or_false] at hop
    rcases hop with rfl | rfl | rfl | rfl | rfl | rfl | rfl <;> rfl
  · simp only [isCI, List.mem_cons, List.not_mem_nil, or_false] at hop
    rcases hop with rfl | rfl | rfl | rfl | rfl | rfl | rfl | rfl | rfl |
      rfl | rfl | rfl <;> rfl

theorem allOnes_imm_decode_witness :
    decode 0xffff0012 = .ok (.Immediate .ADDI 0 0 0xffffffff) ∧
    decode 0xffe007f6 = .ok (.Store .STORE 0 0 0xffffffff) ∧
    decode 0xfe13 = .ok (.Immediate .C_ADDI 0 0 0xffffffff) :=
  ⟨allOnes_imm_decode.1 .ADDI (by decide),
   allOnes_imm_decode.2.1 .STORE (by decide),
   allOnes_imm_decode.2.2.1 .C_ADDI (by decide)⟩

/-! ### Paged memory (`src/mem.rs`)

A page is modelled as a function from offset to byte (the Rust boxed
slice of length `page_size`, zero-filled on allocation).  `pages` maps a
page index to `some` page when the `VecMap` holds an entry.  `read`
returns `Option`: `none` marks an execution the Rust program aborts — the
`unwrap()` on a failed `Cursor::write_all`, or the out-of-bounds
`ptr::write_bytes` when the zero-fill count exceeds the buffer. -/

structure Memory where
  pageSize : Nat
  pages : Nat → Option (Nat → Nat)

/-- `Memory::page_count`: `(u32::MAX + 1) / page_size`. -/
def Memory.pageCount (m : Memory) : Nat := 2 ^ 32 / m.pageSize

/-- `Memory::new` / `Memory::default`: page size 4096, no pages. -/
def Memory.new : Memory := ⟨4096, fun _ => none⟩

/-- Overwrite `xs.length` entries of `buf` starting at position `pos`
(the effect of `Cursor::write_all` when it fits). -/
def overwrite (buf : List Nat) (pos : Nat) (xs : List Nat) : List Nat :=
  buf.take pos ++ xs ++ buf.drop (pos + xs.length)

/-- Store page `pg` at slot `q` of the page map (a `VecMap` insert). -/
def setPage (pages : Nat → Option (Nat → Nat)) (q : Nat) (pg : Nat → Nat) :
    Nat → Option (Nat → Nat) :=
  fun j => if j = q then some pg else pages j

theorem setPage_same (pages : Nat → Option (Nat → Nat)) (q : Nat)
    (pg : Nat → Nat) : setPage pages q pg q = some pg := if_pos rfl

theorem setPage_other (pages : Nat → Option (Nat → Nat)) (q : Nat)
    (pg : Nat → Nat) (j : Nat) (h : ¬ j = q) :
    setPage pages q pg j = pages j := if_neg h

/-- The loop of `Memory::write`, iterating over the page range.  `i` is
the loop counter, `k` the number of iterations remaining (`i + k = n`),
`cur` the unread rest of the source buffer (`Cursor::read_exact` takes
the next chunk).  `page_mut` allocates a zero page on first touch. -/
def writeLoop (ps pc addr endAddr P0 n : Nat) :
    Nat → Nat → (Nat → Option (Nat → Nat)) → List Nat →
    (Nat → Option (Nat → Nat))
  | _, 0, pages, _ => pages
  | i, k + 1, pages, cur =>
    let s := if 0 < i then 0 else addr % ps
    let e := if i < n - 1 then ps else endAddr % ps + 1
    let q := (P0 + i) % pc
    let old := (pages q).getD (fun _ => 0)
    let pg := fun o => if s ≤ o ∧ o < e then cur.getD (o - s) 0 else old o
    writeLoop ps pc addr endAddr P0 n (i + 1) k (setPage pages q pg)
      (cur.drop (e - s))

/-- `Memory::write`: copy `buf` to byte address `addr`.  `end_addr` is
`addr + buf.len().saturating_sub(1)`; buffers of length 0 or 1 make
`end_addr == addr` and return immediately. -/
def Memory.write (m : Memory) (addr : Nat) (buf : List Nat) : Memory :=
  let endAddr := addr + (buf.length - 1)
  if endAddr = addr then m
  else
    let P0 := addr / m.pageSize
    let n := endAddr / m.pageSize + 1 - P0
    { m with pages :=
        writeLoop m.pageSize m.pageCount addr endAddr P0 n 0 n m.pages buf }

/-- The loop of `Memory::read`.  `buf` is the destination buffer's
current contents and `pos` the cursor position.  A mapped page is copied
with `Cursor::write_all` (panic — `none` — when it does not fit).  An
unmapped page runs `ptr::write_bytes(buf.get_mut().as_mut_ptr(), 0,
(end - start) + 1)`: it zeroes `count` bytes from the buffer's START
(not from the cursor position), out of bounds — `none` — when `count`
exceeds the buffer, and then advances the cursor by `count`. -/
def readLoop (ps pc addr endAddr P0 n : Nat)
    (pages : Nat → Option (Nat → Nat)) :
    Nat → Nat → List Nat → Nat → Option (List Nat)
  | _, 0, buf, _ => some buf
  | i, k + 1, buf, pos =>
    let s := if 0 < i then 0 else addr % ps
    let e := if i < n - 1 then ps else endAddr % ps + 1
    match pages ((P0 + i) % pc) with
    | some pg =>
      if pos + (e - s) ≤ buf.length then
        readLoop ps pc addr endAddr P0 n pages (i + 1) k
          (overwrite buf pos ((List.range (e - s)).map fun t => pg (s + t)))
          (pos + (e - s))
      else none
    | none =>
      if (e - s) + 1 ≤ buf.length then
        readLoop ps pc addr endAddr P0 n pages (i + 1) k
          (List.replicate ((e - s) + 1) 0 ++ buf.drop ((e - s) + 1))
          (pos + ((e - s) + 1))
      else none

/-- `Memory::read`: fill the destination buffer (initial contents `buf`)
from byte address `addr`; returns the buffer's final contents, or `none`
when the Rust code aborts.  Buffers of length 0 or 1 return untouched. -/
def Memory.read (m : Memory) (addr : Nat) (buf : List Nat) :
    Option (List Nat) :=
  let endAddr := addr + (buf.length - 1)
  if endAddr = addr then some buf
  else
    let P0 := addr / m.pageSize
    let n := endAddr / m.pageSize + 1 - P0
    readLoop m.pageSize m.pageCount addr endAddr P0 n m.pages 0 n buf 0

/-- `Memory::read_u32`: little-endian 32-bit read via a 4-byte buffer. -/
def Memory.readU32 (m : Memory) (addr : Nat) : Option Nat :=
  (m.read addr [0, 0, 0, 0]).map fun b =>
    b.getD 0 0 + b.getD 1 0 * 2 ^ 8 + b.getD 2 0 * 2 ^ 16 + b.getD 3 0 * 2 ^ 24

/-- `Memory::write_u32`: little-endian 32-bit write via a 4-byte buffer. -/
def Memory.writeU32 (m : Memory) (addr : Nat) (v : Nat) : Memory :=
  m.write addr [v % 256, v / 2 ^ 8 % 256, v / 2 ^ 16 % 256, v / 2 ^ 24 % 256]

/-- C10: `Memory::write` with a buffer of length 0 or 1 leaves the memory
completely unchanged (no byte stored, no page allocated), and
`Memory::read` with a buffer of length 0 or 1 leaves the destination
buffer unmodified. -/
theorem short_buffers_are_noops (m : Memory) (addr : Nat) (buf : List Nat)
    (h : buf.length = 0 ∨ buf.length = 1) :
    m.write addr buf = m ∧ m.read addr buf = some buf := by
  have hz : buf.length - 1 = 0 := by omega
  constructor
  · unfold Memory.write
    rw [hz, if_pos (by omega)]
  · unfold Memory.read
    rw [hz, if_pos (by omega)]

theorem short_buffers_are_noops_witness :
    ([(7 : Nat)].length = 0 ∨ [(7 : Nat)].length = 1) ∧
    Memory.new.write 3 [7] = Memory.new ∧
    Memory.new.read 3 [7] = some [7] :=
  ⟨by decide, (short_buffers_are_noops Memory.new 3 [7] (by decide)).1,
    (short_buffers_are_noops Memory.new 3 [7] (by decide)).2⟩

/-- The concrete memory of the C6 counterexample: default page size, page
0 allocated with bytes `0xff` at offsets 4094 and 4095 (zero elsewhere),
every other page unallocated. -/
def memC6 : Memory :=
  ⟨4096, fun p =>
    if p = 0 then some (fun o => if 4094 ≤ o ∧ o ≤ 4095 then 0xff else 0)
    else none⟩

/-- C6 (code bug): a 4-byte read at address 4094 of `memC6` crosses from
the mapped page 0 (bytes `ff ff`) into unmapped page 1.  The claim (and
`src/mem.rs`'s own comment "Page not allocated, fill `buf` with 0s")
requires the result `[0xff, 0xff, 0, 0]`; the code instead zeroes
`(end - start) + 1 = 3` bytes from the buffer's start — clobbering the
bytes just copied from page 0 — and leaves the final byte of the
destination buffer stale. -/
theorem read_unmapped_zero_fill_bug :
    memC6.read 4094 [9, 9, 9, 9] = some [0, 0, 0, 9] ∧
    ¬ memC6.read 4094 [9, 9, 9, 9] = some [0xff, 0xff, 0, 0] := by
  constructor
  · rfl
  · rw [show memC6.read 4094 [9, 9, 9, 9] = some [0, 0, 0, 9] from rfl]
    decide

/-! ### Write/read round trip

Scaffolding for analysing the two loops at the default page size 4096
(page count `2^32 / 4096 = 1048576`).  For an access at address `addr`
with a buffer of length `len ≥ 2`: `memEnd` is `end_addr`, `memP0` the
first page index, `memN` the number of loop iterations; `chS`/`chE` are
iteration `i`'s `start`/`end` offsets, `chQ` its page slot
(`page % page_count`), and `chC` the number of buffer bytes consumed
before iteration `i`. -/

def pageByte (pages : Nat → Option (Nat → Nat)) (q o : Nat) : Nat :=
  ((pages q).getD (fun _ => 0)) o

def memEnd (addr len : Nat) : Nat := addr + (len - 1)

def memP0 (addr : Nat) : Nat := addr / 4096

def memN (addr len : Nat) : Nat := memEnd addr len / 4096 + 1 - memP0 addr

def chS (addr i : Nat) : Nat := if 0 < i then 0 else addr % 4096

def chE (addr len i : Nat) : Nat :=
  if i < memN addr len - 1 then 4096 else memEnd addr len % 4096 + 1

def chQ (addr i : Nat) : Nat := (memP0 addr + i) % 1048576

def chC (addr len i : Nat) : Nat :=
  if i = 0 then 0 else min ((memP0 addr + i) * 4096 - addr) len

theorem chC_zero (addr len : Nat) : chC addr len 0 = 0 := rfl

theorem chC_le_len (addr len i : Nat) : chC addr len i ≤ len := by
  unfold chC
  split_ifs <;> first | contradiction | omega

theorem chS_lt_chE (addr len i : Nat) (ha : addr < 2 ^ 32) (h2 : 2 ≤ len)
    (hle : len ≤ 2 ^ 32) (hi : i < memN addr len) :
    chS addr i < chE addr len i ∧ chE addr len i ≤ 4096 := by
  unfold chS chE memN memEnd memP0 at *
  split_ifs <;> first | contradiction | omega

theorem chC_step (addr len i : Nat) (ha : addr < 2 ^ 32) (h2 : 2 ≤ len)
    (hle : len ≤ 2 ^ 32) (hi : i < memN addr len) :
    chC addr len (i + 1) =
      chC addr len i + (chE addr len i - chS addr i) := by
  unfold chC chS chE memN memEnd memP0 at *
  rcases Nat.eq_zero_or_pos i with rfl | hpos
  · split_ifs <;> first | contradiction | omega
  · split_ifs <;> first | contradiction | omega

theorem chC_last (addr len : Nat) (ha : addr < 2 ^ 32) (h2 : 2 ≤ len)
    (hle : len ≤ 2 ^ 32) : chC addr len (memN addr len) = len := by
  unfold chC memN memEnd memP0 at *
  split_ifs <;> first | contradiction | omega

theorem chQ_noclobber (addr len i j : Nat) (ha : addr < 2 ^ 32)
    (h2 : 2 ≤ len) (hle : len ≤ 2 ^ 32) (hij : i < j)
    (hj : j < memN addr len) (hq : chQ addr i = chQ addr j) :
    chE addr len j ≤ chS addr i := by
  unfold chQ chS chE memN memEnd memP0 at *
  split_ifs <;> first | contradiction | omega

theorem getD_drop (l : List Nat) (m k d : Nat) :
    (l.drop m).getD k d = l.getD (m + k) d := by
  simp [List.getD, List.getElem?_drop]

theorem map_range_eq (f : Nat → Nat) (l : List Nat) (c k : Nat)
    (h : c + k ≤ l.length) (hf : ∀ t, t < k → f t = l.getD (c + t) 0) :
    (List.range k).map f = (l.drop c).take k := by
  apply List.ext_getElem
  · simp only [List.length_map, List.length_range, List.length_take,
      List.length_drop]
    omega
  · intro t h1 h2
    simp only [List.length_map, List.length_range] at h1
    simp only [List.getElem_map, List.getElem_range, List.getElem_take,
      List.getElem_drop]
    rw [hf t h1, List.getD_eq_getElem l 0 (by omega)]

theorem writeLoop_mono (ps pc addr endAddr P0 n : Nat) :
    ∀ (k i : Nat) (pages : Nat → Option (Nat → Nat)) (cur : List Nat)
      (q : Nat), (pages q).isSome = true →
      ((writeLoop ps pc addr endAddr P0 n i k pages cur) q).isSome = true := by
  intro k
  induction k with
  | zero => intro i pages cur q h; simpa [writeLoop] using h
  | succ k ih =>
    intro i pages cur q h
    simp only [writeLoop]
    apply ih
    by_cases hq : q = (P0 + i) % pc
    · simp [setPage, hq]
    · simpa [setPage, hq] using h

theorem writeLoop_sets (ps pc addr endAddr P0 n : Nat) :
    ∀ (k i : Nat) (pages : Nat → Option (Nat → Nat)) (cur : List Nat)
      (j : Nat), i ≤ j → j < i + k →
      ((writeLoop ps pc addr endAddr P0 n i k pages cur)
        ((P0 + j) % pc)).isSome = true := by
  intro k
  induction k with
  | zero => intro i pages cur j h1 h2; omega
  | succ k ih =>
    intro i pages cur j h1 h2
    rcases eq_or_lt_of_le h1 with rfl | hlt
    · simp only [writeLoop]
      apply writeLoop_mono
      simp [setPage]
    · simp only [writeLoop]
      exact ih (i + 1) _ _ j hlt (by omega)

theorem writeLoop_pres (ps pc addr endAddr P0 n : Nat) :
    ∀ (k i : Nat) (pages : Nat → Option (Nat → Nat)) (cur : List Nat)
      (q o : Nat),
      (∀ j, i ≤ j → j < i + k →
        ¬((P0 + j) % pc = q ∧ (if 0 < j then 0 else addr % ps) ≤ o ∧
          o < (if j < n - 1 then ps else endAddr % ps + 1))) →
      pageByte (writeLoop ps pc addr endAddr P0 n i k pages cur) q o =
        pageByte pages q o := by
  intro k
  induction k with
  | zero => intro i pages cur q o _; simp [writeLoop]
  | succ k ih =>
    intro i pages cur q o hno
    simp only [writeLoop]
    rw [ih (i + 1) _ _ q o (fun j hj1 hj2 => hno j (by omega) (by omega))]
    unfold pageByte
    by_cases hq : q = (P0 + i) % pc
    · rw [hq, setPage_same]
      have hrange := hno i (le_refl i) (by omega)
      simp only [Option.getD_some]
      rw [if_neg (by tauto)]
    · rw [setPage_other _ _ _ _ hq]

theorem writeLoop_chunk (addr len : Nat) (buf : List Nat)
    (ha : addr < 2 ^ 32) (h2 : 2 ≤ len) (hle : len ≤ 2 ^ 32) :
    ∀ (k i : Nat) (pages : Nat → Option (Nat → Nat)),
      i + k = memN addr len →
      ∀ j, i ≤ j → j < memN addr len →
      ∀ o, chS addr j ≤ o → o < chE addr len j →
      pageByte (writeLoop 4096 1048576 addr (memEnd addr len) (memP0 addr)
          (memN addr len) i k pages (buf.drop (chC addr len i)))
        (chQ addr j) o =
      buf.getD (chC addr len j + (o - chS addr j)) 0 := by
  intro k
  induction k with
  | zero => intro i pages hik j hj1 hj2; omega
  | succ k ih =>
    intro i pages hik j hj1 hj2 o ho1 ho2
    simp only [writeLoop]
    have hdd : (buf.drop (chC addr len i)).drop
        ((if i < memN addr len - 1 then 4096
          else memEnd addr len % 4096 + 1) -
         (if 0 < i then 0 else addr % 4096)) =
        buf.drop (chC addr len (i + 1)) := by
      have hstep := chC_step addr len i ha h2 hle (by omega)
      unfold chE chS at hstep
      rw [List.drop_drop]
      congr 1
      omega
    rw [hdd]
    rcases eq_or_lt_of_le hj1 with rfl | hlt
    · -- chunk i is written in this iteration and survives the rest
      rw [writeLoop_pres 4096 1048576 addr (memEnd addr len) (memP0 addr)
        (memN addr len) k (i + 1) _ _ (chQ addr i) o
        (fun j' hj'1 hj'2 => by
          rintro ⟨hq, hs, he⟩
          have hcl := chQ_noclobber addr len i j' ha h2 hle (by omega)
            (by omega) hq.symm
          unfold chS chE at *
          omega)]
      unfold pageByte chQ
      rw [setPage_same]
      simp only [Option.getD_some]
      unfold chS at ho1
      unfold chE at ho2
      rw [if_pos ⟨ho1, ho2⟩, getD_drop]
      unfold chS
      rfl
    · exact ih (i + 1) _ (by omega) j hlt hj2 o ho1 ho2

theorem take_append_len (l1 l2 : List Nat) (m : Nat) (h : l1.length = m) :
    (l1 ++ l2).take m = l1 := by
  subst h
  exact List.take_left l1 l2

theorem drop_append_add (l1 l2 : List Nat) (k : Nat) :
    (l1 ++ l2).drop (l1.length + k) = l2.drop k := by
  induction l1 with
  | nil => simp
  | cons a t ihl =>
    rw [List.cons_append, List.length_cons,
      show t.length + 1 + k = (t.length + k) + 1 from by omega,
      List.drop_succ_cons]
    exact ihl

theorem drop_append_len (l1 l2 : List Nat) (m k : Nat) (h : l1.length = m) :
    (l1 ++ l2).drop (m + k) = l2.drop k := by
  subst h
  exact drop_append_add l1 l2 k

theorem readLoop_roundtrip (addr len : Nat) (buf buf' : List Nat)
    (F : Nat → Option (Nat → Nat))
    (ha : addr < 2 ^ 32) (h2 : 2 ≤ len) (hle : len ≤ 2 ^ 32)
    (hbuf : buf.length = len) (hbuf' : buf'.length = len)
    (hsome : ∀ j, j < memN addr len → (F (chQ addr j)).isSome = true)
    (hbyte : ∀ j, j < memN addr len → ∀ o, chS addr j ≤ o →
      o < chE addr len j →
      pageByte F (chQ addr j) o =
        buf.getD (chC addr len j + (o - chS addr j)) 0) :
    ∀ (k i : Nat), i + k = memN addr len →
      readLoop 4096 1048576 addr (memEnd addr len) (memP0 addr)
        (memN addr len) F i k
        (buf.take (chC addr len i) ++ buf'.drop (chC addr len i))
        (chC addr len i) = some buf := by
  intro k
  induction k with
  | zero =>
    intro i hik
    have hi : i = memN addr len := by omega
    subst hi
    have hcl : chC addr len (memN addr len) = len :=
      chC_last addr len ha h2 hle
    simp only [readLoop]
    rw [hcl, ← hbuf, List.take_length,
      show buf.length = buf'.length from by rw [hbuf, hbuf'],
      List.drop_length, List.append_nil]
  | succ k ih =>
    intro i hik
    have hiN : i < memN addr len := by omega
    have hstep := chC_step addr len i ha h2 hle hiN
    have hclei : chC addr len i ≤ len := chC_le_len addr len i
    have hcle1 : chC addr len (i + 1) ≤ len := chC_le_len addr len (i + 1)
    have hse := chS_lt_chE addr len i ha h2 hle hiN
    simp only [readLoop]
    rw [show (if 0 < i then 0 else addr % 4096) = chS addr i from rfl,
      show (if i < memN addr len - 1 then 4096
        else memEnd addr len % 4096 + 1) = chE addr len i from rfl,
      show (memP0 addr + i) % 1048576 = chQ addr i from rfl]
    obtain ⟨pg, hpg⟩ := Option.isSome_iff_exists.mp (hsome i hiN)
    simp only [hpg]
    have hlen0 : (buf.take (chC addr len i) ++
        buf'.drop (chC addr len i)).length = len := by
      simp only [List.length_append, List.length_take, List.length_drop]
      omega
    rw [if_pos (by rw [hlen0]; omega)]
    have hchunk : (List.range (chE addr len i - chS addr i)).map
        (fun t => pg (chS addr i + t)) =
        (buf.drop (chC addr len i)).take (chE addr len i - chS addr i) := by
      apply map_range_eq _ _ _ _ (by omega)
      intro t ht
      have hb := hbyte i hiN (chS addr i + t) (by omega) (by omega)
      unfold pageByte at hb
      rw [hpg] at hb
      simp only [Option.getD_some] at hb
      rw [show chC addr len i + (chS addr i + t - chS addr i) =
        chC addr len i + t from by omega] at hb
      exact hb
    rw [hchunk]
    have hxslen : ((buf.drop (chC addr len i)).take
        (chE addr len i - chS addr i)).length =
        chE addr len i - chS addr i := by
      simp only [List.length_take, List.length_drop]
      omega
    have htakelen : (buf.take (chC addr len i)).length = chC addr len i := by
      simp only [List.length_take]
      omega
    have hover : overwrite
        (buf.take (chC addr len i) ++ buf'.drop (chC addr len i))
        (chC addr len i)
        ((buf.drop (chC addr len i)).take (chE addr len i - chS addr i)) =
        buf.take (chC addr len (i + 1)) ++
          buf'.drop (chC addr len (i + 1)) := by
      unfold overwrite
      rw [hxslen]
      rw [take_append_len _ _ _ htakelen]
      rw [drop_append_len _ _ _ _ htakelen]
      rw [List.drop_drop]
      rw [hstep, List.take_add]
    rw [hover]
    rw [show chC addr len i + (chE addr len i - chS addr i) =
      chC addr len (i + 1) from by omega]
    exact ih (i + 1) (by omega)

theorem write_read_aux (m : Memory) (addr : Nat) (buf buf' : List Nat)
    (hps : m.pageSize = 4096) (ha : addr < 2 ^ 32)
    (h1 : buf.length ≠ 1) (hle : buf.length ≤ 2 ^ 32)
    (hbuf' : buf'.length = buf.length) :
    (m.write addr buf).read addr buf' = some buf := by
  obtain ⟨ps, pgs⟩ := m
  dsimp only at hps
  subst hps
  rcases Nat.eq_zero_or_pos buf.length with hz | hpos
  · have hb : buf = [] := List.eq_nil_of_length_eq_zero hz
    have hb' : buf' = [] := List.eq_nil_of_length_eq_zero (by omega)
    subst hb
    subst hb'
    unfold Memory.write
    rw [if_pos (by omega)]
    unfold Memory.read
    rw [if_pos (by omega)]
  · have h2 : 2 ≤ buf.length := by omega
    unfold Memory.write
    rw [if_neg (by omega)]
    unfold Memory.read
    rw [if_neg (by omega)]
    dsimp only
    rw [hbuf']
    have hpc : ∀ P : Nat → Option (Nat → Nat),
        Memory.pageCount ⟨4096, P⟩ = 1048576 := by
      intro P
      norm_num [Memory.pageCount]
    simp only [hpc]
    have hbyte : ∀ j, j < memN addr buf.length → ∀ o, chS addr j ≤ o →
        o < chE addr buf.length j →
        pageByte (writeLoop 4096 1048576 addr (memEnd addr buf.length)
            (memP0 addr) (memN addr buf.length) 0 (memN addr buf.length)
            pgs buf) (chQ addr j) o =
          buf.getD (chC addr buf.length j + (o - chS addr j)) 0 :=
      fun j hj o ho1 ho2 =>
        writeLoop_chunk addr buf.length buf ha h2 hle
          (memN addr buf.length) 0 pgs (Nat.zero_add _) j (Nat.zero_le j)
          hj o ho1 ho2
    have hsome : ∀ j, j < memN addr buf.length →
        ((writeLoop 4096 1048576 addr (memEnd addr buf.length)
            (memP0 addr) (memN addr buf.length) 0 (memN addr buf.length)
            pgs buf) (chQ addr j)).isSome = true :=
      fun j hj =>
        writeLoop_sets 4096 1048576 addr (memEnd addr buf.length)
          (memP0 addr) (memN addr buf.length) (memN addr buf.length) 0 pgs
          buf j (Nat.zero_le j) (by omega)
    have happ := readLoop_roundtrip addr buf.length buf buf' _ ha h2 hle
      rfl hbuf' hsome hbyte (memN addr buf.length) 0 (Nat.zero_add _)
    simp only [chC_zero, List.take_zero, List.drop_zero,
      List.nil_append] at happ
    exact happ

/-- C2 (amended): for every default-page-size memory, every address and
every pair of equal-length buffers whose length is not 1 and at most
`2^32`, `write(addr, buf)` followed by `read(addr, buf')` yields `buf` —
across unaligned, page-crossing and `2^32`-wrapping ranges.  (Length-1
accesses are no-ops — see the counterexample — and a buffer longer than
`2^32` would overlap itself after wrapping.) -/
theorem write_read_roundtrip (m : Memory) (addr : Nat) (buf buf' : List Nat)
    (hps : m.pageSize = 4096) (ha : addr < 2 ^ 32)
    (h1 : buf.length ≠ 1) (hle : buf.length ≤ 2 ^ 32)
    (hbuf' : buf'.length = buf.length) :
    (m.write addr buf).read addr buf' = some buf :=
  write_read_aux m addr buf buf' hps ha h1 hle hbuf'

/-- C2 counterexample: the claim fails for buffers of length 1 — both
`write` and `read` return immediately (`end_addr == addr`), so the byte
is never stored and never read back. -/
theorem write_read_len1_counterexample :
    (Memory.new.write 0 [42]).read 0 [0] = some [0] ∧
    ¬ (Memory.new.write 0 [42]).read 0 [0] = some [42] := by
  constructor
  · rfl
  · rw [show (Memory.new.write 0 [42]).read 0 [0] = some [0] from rfl]
    decide

theorem write_read_roundtrip_witness :
    (Memory.new.write 4095 [1, 2, 3]).read 4095 [0, 0, 0] =
      some [1, 2, 3] :=
  write_read_roundtrip Memory.new 4095 [1, 2, 3] [0, 0, 0] rfl
    (by norm_num) (by decide) (by norm_num) rfl

/-! ### Execution core (`src/vm.rs`)

The register file is a function from index to value (all stored values
are `< 2^32`); register 0 is the program counter and register 1 the
stack pointer.  The open-file table maps slots to `some ()` when a host
`File` occupies them — the host file itself lives outside the model, as
do the four syscalls (`read`/`write`/`open`/`create`) whose result
depends on the host file system; those return the `hostCall` marker.
`panic` marks executions the Rust program aborts. -/

structure VM where
  memory : Memory
  registers : Nat → Nat
  breakpointsEnabled : Bool
  verboseOutput : Bool
  fileHandles : Nat → Option Unit

/-- Assignment `self.registers[i] = v`. -/
def VM.setReg (vm : VM) (i v : Nat) : VM :=
  { vm with registers := fun j => if j = i then v else vm.registers j }

/-- `VirtualMachine::new`: reject images longer than `2^32` bytes
(`ProgramTooLarge`), else zero the registers, `reset` (PC ← 0,
SP ← 0xFFFFFFFC) and write the program image at address 0. -/
def VirtualMachine.new (program : List Nat) : Except Err VM :=
  if 2 ^ 32 < program.length then .error .programTooLarge
  else .ok
    { memory := Memory.new.write 0 program
      registers := fun i => if i = 1 then 0xfffffffc else 0
      breakpointsEnabled := false
      verboseOutput := false
      fileHandles := fun _ => none }

/-- The successfully constructed VM (proof-side accessor; programs used
below construct successfully). -/
def VM.ofProgram (program : List Nat) : VM :=
  match VirtualMachine.new program with
  | .ok vm => vm
  | .error _ =>
    { memory := Memory.new, registers := fun _ => 0,
      breakpointsEnabled := false, verboseOutput := false,
      fileHandles := fun _ => none }

/-- Outcome of one `exec_instr` dispatch:  `next` = `Ok(None)`, `exit` =
`Ok(Some(status))`, `fault` = `Err(e)`; `panic` marks a Rust abort
(an `unreachable!()` arm, an aborted memory read, or the debug-mode
arithmetic-overflow panic); `hostCall` marks the syscalls whose behaviour
depends on the host file system (out of the model's scope). -/
inductive StepOutcome where
  | next (vm : VM)
  | exit (vm : VM) (status : Int)
  | fault (e : Err)
  | panic
  | hostCall

def StepOutcome.pcOf : StepOutcome → Option Nat
  | .next vm => some (vm.registers 0)
  | _ => none

def StepOutcome.regOf : StepOutcome → Nat → Option Nat
  | .next vm, i => some (vm.registers i)
  | _, _ => none

/-- `VirtualMachine::close_file`.  The slot is `handle as usize - 3`:
for `handle < 3` the subtraction underflows — debug builds (the profile
`cargo test`/`cargo run` use) panic; release builds wrap to at least
`2^64 - 3`, beyond every occupied slot, so `VecMap::remove` misses and
−1 is returned.  `sync_all` is host I/O, modelled as succeeding. -/
def VM.closeFile (vm : VM) (handle : Nat) : Option (VM × Nat) :=
  if handle < 3 then none
  else
    match vm.fileHandles (handle - 3) with
    | some _ => some
      ({ vm with fileHandles :=
          fun i => if i = handle - 3 then none else vm.fileHandles i }, 0)
    | none => some (vm, 0xffffffff)

/-- `VirtualMachine::exec_syscall`, dispatching on the low 16 bits of the
immediate.  Calls 1, 2, 3 and 5 interact with the host file system. -/
def VM.execSyscall (vm : VM) (call : Nat) : StepOutcome :=
  match call with
  | 0 => .exit vm (toI32 (vm.registers 4))
  | 1 => .hostCall
  | 2 => .hostCall
  | 3 => .hostCall
  | 4 =>
    match vm.closeFile (vm.registers 4) with
    | none => .panic
    | some (vm', r) => .next (vm'.setReg 3 r)
  | 5 => .hostCall
  | c => .fault (.invalidSysCall c)

/-- `VirtualMachine::exec_instr`.  The program counter is incremented by
the instruction size *before* the dispatch (`*self.program_ctr_mut() +=
instr.size()`; the add wraps under release semantics), so every register
read below — including the branch base `program_ctr` captured in the
Store arm — sees the post-increment PC. -/
def VM.execInstr (vm0 : VM) (instr : Instruction) : StepOutcome :=
  let vm := vm0.setReg 0 ((vm0.registers 0 + instr.size) % 2 ^ 32)
  match instr with
  | .Register op dst src1 src2 =>
    let s1 := vm.registers src1
    let s2 := vm.registers src2
    match op with
    | .ADD | .C_ADD => .next (vm.setReg dst (add32 s1 s2))
    | .SUB | .C_SUB => .next (vm.setReg dst (sub32 s1 s2))
    | .AND | .C_AND => .next (vm.setReg dst (s1 &&& s2))
    | .OR | .C_OR => .next (vm.setReg dst (s1 ||| s2))
    | .XOR | .C_XOR => .next (vm.setReg dst (s1 ^^^ s2))
    | .SLL | .C_SLL => .next (vm.setReg dst (s1 * 2 ^ (s2 % 32) % 2 ^ 32))
    | .SRL | .C_SRL => .next (vm.setReg dst (s1 / 2 ^ (s2 % 32)))
    | .SRA | .C_SRA => .next (vm.setReg dst (sra32 s1 (s2 % 32)))
    | .MV => .next (vm.setReg dst s2)
    | _ => .panic
  | .Immediate op dst src1 imm =>
    let s1 := vm.registers src1
    match op with
    | .ADDI | .C_ADDI => .next (vm.setReg dst (add32 s1 imm))
    | .ANDI | .C_ANDI => .next (vm.setReg dst (s1 &&& imm))
    | .ORI | .C_ORI => .next (vm.setReg dst (s1 ||| imm))
    | .XORI | .C_XORI => .next (vm.setReg dst (s1 ^^^ imm))
    | .SLLI | .C_SLLI => .next (vm.setReg dst (s1 * 2 ^ (imm % 32) % 2 ^ 32))
    | .SRLI | .C_SRLI => .next (vm.setReg dst (s1 / 2 ^ (imm % 32)))
    | .SRAI | .C_SRAI => .next (vm.setReg dst (sra32 s1 (imm % 32)))
    | .LI | .C_LI => .next (vm.setReg dst imm)
    | .BEZ | .C_BEZ =>
      .next (if s1 = 0 then vm.setReg 0 (add32 (vm.registers 0) imm) else vm)
    | .BNZ | .C_BNZ =>
      .next (if s1 = 0 then vm else vm.setReg 0 (add32 (vm.registers 0) imm))
    | .LOAD | .C_LOAD =>
      match vm.memory.readU32 (add32 s1 imm) with
      | some v => .next (vm.setReg dst v)
      | none => .panic
    | .CALL | .C_CALL => vm.execSyscall (imm % 2 ^ 16)
    | .BREAK | .C_BREAK => .next vm
    | _ => .panic
  | .Store op src1 src2 imm =>
    let s1 := vm.registers src1
    let s2 := vm.registers src2
    let pctr := vm.registers 0
    match op with
    | .STORE | .C_STORE =>
      .next { vm with memory := vm.memory.writeU32 (add32 s1 imm) s2 }
    | .BEQ => .next (if s1 = s2 then vm.setReg 0 (add32 pctr imm) else vm)
    | .BNE => .next (if s1 = s2 then vm else vm.setReg 0 (add32 pctr imm))
    | .BLT =>
      .next (if toI32 s1 < toI32 s2 then vm.setReg 0 (add32 pctr imm) else vm)
    | .BGE =>
      .next (if toI32 s2 ≤ toI32 s1 then vm.setReg 0 (add32 pctr imm) else vm)
    | .BLT_U => .next (if s1 < s2 then vm.setReg 0 (add32 pctr imm) else vm)
    | .BGE_U => .next (if s2 ≤ s1 then vm.setReg 0 (add32 pctr imm) else vm)
    | _ => .panic
  | .Upper op dst imm =>
    match op with
    | .LUI | .C_LUI => .next (vm.setReg dst imm)
    | _ => .panic

/-- One iteration of `VirtualMachine::run`: fetch a 32-bit word at PC,
decode (a decode failure aborts the run), execute. -/
def VM.step (vm : VM) : StepOutcome :=
  match vm.memory.readU32 (vm.registers 0) with
  | none => .panic
  | some word =>
    match decode word with
    | .error e => .fault e
    | .ok instr => vm.execInstr instr

/-- The taken-condition of the store-shape branch arms of `exec_instr`. -/
@[reducible] def storeBranchTaken (op : OpCode) (a b : Nat) : Prop :=
  match op with
  | .BEQ => a = b
  | .BNE => ¬ a = b
  | .BLT => toI32 a < toI32 b
  | .BGE => toI32 b ≤ toI32 a
  | .BLT_U => a < b
  | .BGE_U => b ≤ a
  | _ => False

/-- The taken-condition of the BEZ/BNZ arms of `exec_instr`. -/
@[reducible] def immBranchTaken (op : OpCode) (a : Nat) : Prop :=
  match op with
  | .BEZ | .C_BEZ => a = 0
  | .BNZ | .C_BNZ => ¬ a = 0
  | _ => False

/-- C1 (amended): BOTH branch shapes take their target from the
post-increment program counter.  For every machine state and every taken
branch — store-shape BEQ/BNE/BLT/BGE/BLT_U/BGE_U as well as
immediate-shape BEZ/BNZ/C_BEZ/C_BNZ — the new PC is
`(PC_before + size(instr) + imm) mod 2^32`: the PC increment of the
fetch step happens before the dispatch, and the store-shape arms capture
`program_ctr` only afterwards.  (The taken-condition reads the register
file after that same increment, hence the `setReg 0` in the premise.) -/
theorem branch_target_post_increment :
    (∀ (vm : VM) (op : OpCode) (src1 src2 imm : Nat),
      op ∈ ([.BEQ, .BNE, .BLT, .BGE, .BLT_U, .BGE_U] : List OpCode) →
      storeBranchTaken op
        ((vm.setReg 0 ((vm.registers 0 +
          (Instruction.Store op src1 src2 imm).size) % 2 ^ 32)).registers
          src1)
        ((vm.setReg 0 ((vm.registers 0 +
          (Instruction.Store op src1 src2 imm).size) % 2 ^ 32)).registers
          src2) →
      (vm.execInstr (.Store op src1 src2 imm)).pcOf =
        some ((vm.registers 0 +
          (Instruction.Store op src1 src2 imm).size + imm) % 2 ^ 32)) ∧
    (∀ (vm : VM) (op : OpCode) (dst src1 imm : Nat),
      op ∈ ([.BEZ, .BNZ, .C_BEZ, .C_BNZ] : List OpCode) →
      immBranchTaken op
        ((vm.setReg 0 ((vm.registers 0 +
          (Instruction.Immediate op dst src1 imm).size) % 2 ^ 32)).registers
          src1) →
      (vm.execInstr (.Immediate op dst src1 imm)).pcOf =
        some ((vm.registers 0 +
          (Instruction.Immediate op dst src1 imm).size + imm) % 2 ^ 32)) := by
  constructor
  · intro vm op src1 src2 imm hop htk
    simp only [List.mem_cons, List.not_mem_nil, or_false] at hop
    rcases hop with rfl | rfl | rfl | rfl | rfl | rfl <;>
      first
      | (simp only [VM.execInstr, storeBranchTaken] at htk ⊢
         rw [if_pos htk]
         simp only [StepOutcome.pcOf, VM.setReg, add32, if_true, if_false]
         rw [Nat.mod_add_mod])
      | (simp only [VM.execInstr, storeBranchTaken] at htk ⊢
         rw [if_neg htk]
         simp only [StepOutcome.pcOf, VM.setReg, add32, if_true, if_false]
         rw [Nat.mod_add_mod])
  · intro vm op dst src1 imm hop htk
    simp only [List.mem_cons, List.not_mem_nil, or_false] at hop
    rcases hop with rfl | rfl | rfl | rfl <;>
      first
      | (simp only [VM.execInstr, immBranchTaken] at htk ⊢
         rw [if_pos htk]
         simp only [StepOutcome.pcOf, VM.setReg, add32, if_true, if_false]
         rw [Nat.mod_add_mod])
      | (simp only [VM.execInstr, immBranchTaken] at htk ⊢
         rw [if_neg htk]
         simp only [StepOutcome.pcOf, VM.setReg, add32, if_true, if_false]
         rw [Nat.mod_add_mod])

/-- C1 counterexample: on a fresh VM (PC = 0, r2 = 0), the taken store-
shape branch `BEQ r2, r2, 4` sets PC to 8 — the post-increment PC (4)
plus the immediate — not to the pre-increment PC plus the immediate
(0 + 4 = 4) as the claim states for store-shape branches. -/
theorem branch_base_counterexample :
    ((VM.ofProgram []).execInstr (.Store .BEQ 2 2 4)).pcOf = some 8 ∧
    ¬ ((VM.ofProgram []).execInstr (.Store .BEQ 2 2 4)).pcOf =
      some ((VM.ofProgram []).registers 0 + 4) := by
  constructor
  · rfl
  · rw [show ((VM.ofProgram []).execInstr (.Store .BEQ 2 2 4)).pcOf =
      some 8 from rfl]
    decide

theorem branch_target_post_increment_witness :
    ((VM.ofProgram []).execInstr (.Store .BEQ 2 2 4)).pcOf =
      some (((VM.ofProgram []).registers 0 +
        (Instruction.Store .BEQ 2 2 4).size + 4) % 2 ^ 32) :=
  branch_target_post_increment.1 (VM.ofProgram []) .BEQ 2 2 4 (by decide)
    (by decide)

/-- C4 (amended): the 4-byte program `[0x02, 0x00, 0x01, 0x00]` decodes
to `ADD r0, r0, r1` and one step executes it; but since SP (r1) is
initialised to 0xFFFFFFFC (not 0), the PC becomes
`(0 + 4) + 0xFFFFFFFC mod 2^32 = 0` — not 4.  r1 is unchanged. -/
theorem add_scenario :
    (VM.ofProgram [2, 0, 1, 0]).memory.readU32 0 = some 0x00010002 ∧
    decode 0x00010002 = .ok (.Register .ADD 0 0 1) ∧
    ((VM.ofProgram [2, 0, 1, 0]).step).pcOf = some 0 ∧
    ((VM.ofProgram [2, 0, 1, 0]).step).regOf 1 = some 0xfffffffc :=
  ⟨rfl, rfl, rfl, rfl⟩

/-- C4 counterexample: after the single `ADD r0, r0, r1` step the PC is
0, not 4 as the claim states. -/
theorem add_scenario_counterexample :
    ((VM.ofProgram [2, 0, 1, 0]).step).pcOf = some 0 ∧
    ¬ ((VM.ofProgram [2, 0, 1, 0]).step).pcOf = some 4 := by
  constructor
  · rfl
  · rw [show ((VM.ofProgram [2, 0, 1, 0]).step).pcOf = some 0 from rfl]
    decide

/-- C7 (amended): construction fails with `ProgramTooLarge` exactly when
the image is longer than `2^32` bytes; otherwise it succeeds, all 32
registers are zero except SP (r1) = 0xFFFFFFFC (PC, r0, is zero), and —
for images of length other than 1, whose single byte the length-1
early-return of `Memory::write` silently drops — reading
`program.length` bytes from address 0 returns the image. -/
theorem vm_construction (program : List Nat) :
    (2 ^ 32 < program.length →
      VirtualMachine.new program = .error .programTooLarge) ∧
    (program.length ≤ 2 ^ 32 →
      ∃ vm, VirtualMachine.new program = .ok vm ∧
        (∀ i, vm.registers i = if i = 1 then 0xfffffffc else 0) ∧
        (program.length ≠ 1 →
          vm.memory.read 0 (List.replicate program.length 0) =
            some program)) := by
  constructor
  · intro h
    unfold VirtualMachine.new
    rw [if_pos h]
  · intro h
    unfold VirtualMachine.new
    rw [if_neg (by omega)]
    refine ⟨_, rfl, fun i => rfl, fun h1 => ?_⟩
    exact write_read_aux Memory.new 0 program
      (List.replicate program.length 0) rfl (by norm_num) h1 h
      (List.length_replicate _ _)

/-- C7 counterexample: the 1-byte image `[42]` constructs successfully,
but reading 1 byte from address 0 yields `[0]`, not the image — both
the construction's `Memory::write` and the `Memory::read` are no-ops
for length-1 buffers. -/
theorem vm_construction_len1_counterexample :
    (VM.ofProgram [42]).memory.read 0 [0] = some [0] ∧
    ¬ (VM.ofProgram [42]).memory.read 0 [0] = some [42] := by
  constructor
  · rfl
  · rw [show (VM.ofProgram [42]).memory.read 0 [0] = some [0] from rfl]
    decide

theorem vm_construction_witness :
    ∃ vm, VirtualMachine.new [1, 2] = .ok vm ∧
      (∀ i, vm.registers i = if i = 1 then 0xfffffffc else 0) ∧
      ([1, 2].length ≠ 1 →
        vm.memory.read 0 (List.replicate [1, 2].length 0) = some [1, 2]) :=
  (vm_construction [1, 2]).2 (by norm_num)

/-- C8 (code bug): executing syscall 4 (close) with r4 ∈ {0, 1, 2} —
the reserved standard handles — reaches `handle as usize - 3`, which
underflows: debug builds panic instead of returning −1.  (In release
builds the subtraction wraps to ≥ 2^64 − 3, `VecMap::remove` misses,
and −1 is produced only by accident.)  The fresh VM has r4 = 0; the
other two conjuncts set r4 to 1 and 2. -/
theorem close_reserved_handle_panics :
    (VM.ofProgram []).execInstr (.Immediate .CALL 0 0 4) = .panic ∧
    ((VM.ofProgram []).setReg 4 1).execInstr (.Immediate .CALL 0 0 4) =
      .panic ∧
    ((VM.ofProgram []).setReg 4 2).execInstr (.Immediate .CALL 0 0 4) =
      .panic :=
  ⟨rfl, rfl, rfl⟩

/-! ### Assembler (`src/bin/assembler/parser.rs`)

The two-pass `parse` function is modelled over the per-line results of
`parse_line` (an optional label and an optional placeholder instruction
per non-empty line), which is the granularity at which the claims cite
the source.  The `HashMap` of labels is modelled as an association list
whose most recent insertion wins. -/

inductive ImmediatePlaceholder where
  | value (v : Nat)
  | labelAbsolute (l : String)
  | labelRelative (l : String)
  deriving DecidableEq, Repr

inductive InstructionPlaceholder where
  | register (op : OpCode) (dst src1 src2 : Nat)
  | immediate (op : OpCode) (dst src1 : Nat) (imm : ImmediatePlaceholder)
  | store (op : OpCode) (src1 src2 : Nat) (imm : ImmediatePlaceholder)
  | upper (op : OpCode) (dst : Nat) (imm : ImmediatePlaceholder)
  | stringLiteral (bytes : List Nat)
  deriving DecidableEq, Repr

/-- `InstructionPlaceholder::size`: instruction size from the opcode's
parity; a `bytes "…"` literal occupies its byte length. -/
def InstructionPlaceholder.size : InstructionPlaceholder → Nat
  | .register op _ _ _ | .immediate op _ _ _ | .store op _ _ _
  | .upper op _ _ => if op.val % 2 = 0 then 4 else 2
  | .stringLiteral s => s.length

/-- `HashMap::get` over the association list (first match wins, matching
insert-overwrites at the head). -/
def lookupLabel : List (String × Nat) → String → Option Nat
  | [], _ => none
  | (k, v) :: rest, l => if k = l then some v else lookupLabel rest l

/-- The immediate arm of `into_instr`: a literal value stands; an
absolute label resolves to its address; a relative label resolves to
`(labels[l] as i32 - pos as i32) as u32`. -/
def resolveImm (labels : List (String × Nat)) (pos : Nat) :
    ImmediatePlaceholder → Except String Nat
  | .value v => .ok v
  | .labelAbsolute l =>
    match lookupLabel labels l with
    | some a => .ok a
    | none => .error ("Label not found: " ++ l)
  | .labelRelative l =>
    match lookupLabel labels l with
    | some a => .ok (sub32 a pos)
    | none => .error ("Label not found: " ++ l)

/-- `InstructionPlaceholder::into_instr`.  Pass 2 never calls it on a
string literal (the Rust arm is `unreachable!()`). -/
def InstructionPlaceholder.intoInstr (labels : List (String × Nat))
    (pos : Nat) : InstructionPlaceholder → Except String Instruction
  | .register op dst src1 src2 => .ok (.Register op dst src1 src2)
  | .immediate op dst src1 imm =>
    (resolveImm labels pos imm).map fun v => .Immediate op dst src1 v
  | .store op src1 src2 imm =>
    (resolveImm labels pos imm).map fun v => .Store op src1 src2 v
  | .upper op dst imm =>
    (resolveImm labels pos imm).map fun v => .Upper op dst v
  | .stringLiteral _ => .error "unreachable"

/-- Pass 1 of `parse`: record each label at the current byte address,
advance the address by each instruction's size, collect the placeholder
instructions in order. -/
def passOne : List (Option String × Option InstructionPlaceholder) →
    List (String × Nat) → List InstructionPlaceholder → Nat →
    List (String × Nat) × List InstructionPlaceholder
  | [], labels, instrs, _ => (labels, instrs)
  | (lbl, ins) :: rest, labels, instrs, length =>
    let labels := match lbl with
      | some l => (l, length) :: labels
      | none => labels
    match ins with
    | some i => passOne rest labels (instrs ++ [i]) (length + i.size)
    | none => passOne rest labels instrs length

/-- Pass 2 of `parse`: `length` is incremented by the instruction's size
*before* `into_instr` is invoked with it, so a relative label resolves
against the address of the *next* instruction. -/
def passTwo (labels : List (String × Nat)) :
    List InstructionPlaceholder → Nat → List Nat →
    Except String (List Nat)
  | [], _, bytes => .ok bytes
  | instr :: rest, length, bytes =>
    match instr with
    | .stringLiteral s =>
      passTwo labels rest (length + instr.size) (bytes ++ s)
    | _ =>
      match InstructionPlaceholder.intoInstr labels
          (length + instr.size) instr with
      | .error e => .error e
      | .ok i => passTwo labels rest (length + instr.size)
          (bytes ++ i.writeBytes)

/-- `parse` over the per-line results of `parse_line`. -/
def parse (lines : List (Option String × Option InstructionPlaceholder)) :
    Except String (List Nat) :=
  let r := passOne lines [] [] 0
  passTwo r.1 r.2 0 []

/-- The three lines of the claim's program
`label:` / `add r2, r2, r3` / `addi r0, r0, $label`, as produced by
`parse_line` (the repository's own parser tests show these exact
placeholder values for this syntax). -/
def linesC9 : List (Option String × Option InstructionPlaceholder) :=
  [(some "label", none),
   (none, some (.register .ADD 2 2 3)),
   (none, some (.immediate .ADDI 0 0 (.labelRelative "label")))]

/-- C9: pass 2 resolves a `$L` relative-label immediate to the label's
recorded address minus the assembler's post-increment position — the
address of the *next* instruction (`sub32 a (len + size)` below); and
the program `label:` / `add r2, r2, r3` / `addi r0, r0, $label`
assembles to the bytes `82 10 03 00 12 00 f8 ff`. -/
theorem relative_label_resolution :
    (∀ (labels : List (String × Nat)) (op : OpCode) (dst src1 : Nat)
      (L : String) (a : Nat) (rest : List InstructionPlaceholder)
      (len : Nat) (acc : List Nat),
      lookupLabel labels L = some a →
      passTwo labels
        (InstructionPlaceholder.immediate op dst src1
          (.labelRelative L) :: rest) len acc =
      passTwo labels rest
        (len + (InstructionPlaceholder.immediate op dst src1
          (.labelRelative L)).size)
        (acc ++ (Instruction.Immediate op dst src1
          (sub32 a (len + (InstructionPlaceholder.immediate op dst src1
            (.labelRelative L)).size))).writeBytes)) ∧
    parse linesC9 = .ok [0x82, 0x10, 0x03, 0x00, 0x12, 0x00, 0xf8, 0xff] := by
  constructor
  · intro labels op dst src1 L a rest len acc hl
    simp only [passTwo, InstructionPlaceholder.intoInstr, resolveImm, hl,
      Except.map]
  · rfl

theorem relative_label_resolution_witness :
    passTwo [("x", 12)]
      [.immediate .ADDI 0 0 (.labelRelative "x")] 0 [] =
    passTwo [("x", 12)] []
      (0 + (InstructionPlaceholder.immediate .ADDI 0 0
        (.labelRelative "x")).size)
      ([] ++ (Instruction.Immediate .ADDI 0 0
        (sub32 12 (0 + (InstructionPlaceholder.immediate .ADDI 0 0
          (.labelRelative "x")).size))).writeBytes) :=
  relative_label_resolution.1 [("x", 12)] .ADDI 0 0 "x" 12 [] 0 [] rfl

end SVM
